import Mathlib

set_option maxRecDepth 10000

/-!
Verification development for the librsvg document-tree / style engine
(rsvg_internals/src/node.rs, src/cond.rs) and the text layout pipeline
(src/text.rs).  Rust sources are embedded shallowly: pure functions become
Lean functions, interior mutability becomes explicit state passing, fallible
code returns Except/Option, and the external collaborators (pango, the
transform parser, the language_tags crate, the property definitions) are
modelled from the spec where noted.
-/

namespace Rsvg

/-!
## Document tree and CSS cascade, from rsvg_internals/src/node.rs 339-350

The cascade is generic in the property types: sigma stands for the
SpecifiedValues type, gamma for ComputedValues, and merge for
SpecifiedValues::to_computed_values, which folds a node's specified values
into a clone of the inherited computed values.
-/

structure NodeData (σ γ : Type) where
  specified_values : σ
  values : γ

inductive NTree (σ γ : Type) where
  | node (data : NodeData σ γ) (children : List (NTree σ γ))

mutual
/-- Source Node::cascade (node.rs 339-350): clone the inherited values, merge
the node's specified values into them, store the result as this node's
computed values, then recurse into the children with the freshly computed
values. -/
def Node.cascade {σ γ : Type} (merge : γ → σ → γ) : NTree σ γ → γ → NTree σ γ
  | .node d cs, inherited =>
    NTree.node ⟨d.specified_values, merge inherited d.specified_values⟩
      (Node.cascadeChildren merge cs (merge inherited d.specified_values))

/-- Source Node::cascade, the loop for child in self.children(). -/
def Node.cascadeChildren {σ γ : Type} (merge : γ → σ → γ) :
    List (NTree σ γ) → γ → List (NTree σ γ)
  | [], _ => []
  | c :: cs, v => Node.cascade merge c v :: Node.cascadeChildren merge cs v
end

/-!
## Errors and attributes (error.rs interface, attributes.rs interface)
-/

inductive Attribute where
  | Transform
  | Style
  | RequiredExtensions
  | RequiredFeatures
  | SystemLanguage
  | Other (name : String)
deriving DecidableEq

inductive ValueErrorKind where
  | parseError (msg : String)
  | valueError (msg : String)
deriving DecidableEq

/-- Source NodeError: an attribute error tagged with the attribute name
(NodeError::attribute_error). -/
structure NodeError where
  attr : Attribute
  err : ValueErrorKind
deriving DecidableEq

deriving instance DecidableEq for Except

/-- Accumulator-based worker for splitWhitespace; cur holds the current
token reversed. -/
def splitWhitespaceAux : List Char → List Char → List String
  | [], cur => if cur.isEmpty then [] else [String.mk cur.reverse]
  | c :: cs, cur =>
    if c.isWhitespace then
      if cur.isEmpty then splitWhitespaceAux cs []
      else String.mk cur.reverse :: splitWhitespaceAux cs []
    else splitWhitespaceAux cs (c :: cur)

/-- Rust str::split_whitespace: split on whitespace, yielding no empty
tokens. -/
def splitWhitespace (s : String) : List String :=
  splitWhitespaceAux s.toList []

/-- Split a character list at every occurrence of sep; like Rust
str::split with a single-character pattern, the empty input yields one empty
token. -/
def splitOnChar (sep : Char) : List Char → List (List Char)
  | [] => [[]]
  | c :: cs =>
    if c = sep then [] :: splitOnChar sep cs
    else
      match splitOnChar sep cs with
      | [] => [[c]]
      | t :: ts => (c :: t) :: ts

/-- Rust str::split with a single-character separator. -/
def splitOnString (sep : Char) (s : String) : List String :=
  (splitOnChar sep s.toList).map String.mk

/-- Rust str::trim. -/
def trimString (s : String) : String :=
  String.mk (((s.toList.dropWhile Char.isWhitespace).reverse.dropWhile
    Char.isWhitespace).reverse)

/-- Rust str::to_lowercase restricted to ASCII, as used for case-insensitive
language-tag matching. -/
def toLowerString (s : String) : String :=
  String.mk (s.toList.map Char.toLower)

/-- Parse a nonempty all-digit string as a natural number. -/
def parseNatDigits (s : String) : Option Nat :=
  if s.toList ≠ [] ∧ s.toList.all Char.isDigit then
    some (s.toList.foldl (fun n c => 10 * n + (c.toNat - 48)) 0)
  else none

/-!
## Conditional processing, from src/cond.rs
-/

/-- Source cond.rs: no extensions are implemented at the moment. -/
def IMPLEMENTED_EXTENSIONS : List String := []

/-- Source RequiredExtensions::from_attribute (cond.rs 23-28): true iff every
whitespace-separated token is an implemented extension.  The Rust binary
search over the sorted table is modelled as list membership; the source
always returns Ok, so the result is a plain Bool. -/
def RequiredExtensions.from_attribute (s : String) : Bool :=
  (splitWhitespace s).all (fun f => IMPLEMENTED_EXTENSIONS.contains f)

/-- Source cond.rs 37-59: the sorted table of implemented feature ids. -/
def IMPLEMENTED_FEATURES : List String :=
  [ "http://www.w3.org/TR/SVG11/feature#BasicFilter",
    "http://www.w3.org/TR/SVG11/feature#BasicGraphicsAttribute",
    "http://www.w3.org/TR/SVG11/feature#BasicPaintAttribute",
    "http://www.w3.org/TR/SVG11/feature#BasicStructure",
    "http://www.w3.org/TR/SVG11/feature#BasicText",
    "http://www.w3.org/TR/SVG11/feature#ConditionalProcessing",
    "http://www.w3.org/TR/SVG11/feature#ContainerAttribute",
    "http://www.w3.org/TR/SVG11/feature#Filter",
    "http://www.w3.org/TR/SVG11/feature#Gradient",
    "http://www.w3.org/TR/SVG11/feature#Image",
    "http://www.w3.org/TR/SVG11/feature#Marker",
    "http://www.w3.org/TR/SVG11/feature#Mask",
    "http://www.w3.org/TR/SVG11/feature#OpacityAttribute",
    "http://www.w3.org/TR/SVG11/feature#Pattern",
    "http://www.w3.org/TR/SVG11/feature#SVG",
    "http://www.w3.org/TR/SVG11/feature#SVG-static",
    "http://www.w3.org/TR/SVG11/feature#Shape",
    "http://www.w3.org/TR/SVG11/feature#Structure",
    "http://www.w3.org/TR/SVG11/feature#Style",
    "http://www.w3.org/TR/SVG11/feature#View",
    "org.w3c.svg.static" ]

/-- Source RequiredFeatures::from_attribute (cond.rs 67-72): true iff every
whitespace-separated token is an implemented feature.  Always Ok in the
source, so a plain Bool here. -/
def RequiredFeatures.from_attribute (s : String) : Bool :=
  (splitWhitespace s).all (fun f => IMPLEMENTED_FEATURES.contains f)

/-- Modelled from the spec: LanguageTag::from_str comes from the external
language_tags crate, which is not part of this repository.  Per the spec a
systemLanguage token is parsed as a BCP-47 language tag; we model a tag as
its list of subtags, lowercased for case-insensitive matching, requiring an
alphabetic primary subtag of 2 to 8 letters followed by alphanumeric subtags
of 1 to 8 characters.  The empty string and a numeric primary subtag such as
12345 fail to parse, as in the source's unit tests. -/
def LanguageTag.from_str (s : String) : Option (List String) :=
  match (splitOnString '-' s).map toLowerString with
  | [] => none
  | first :: rest =>
    if 2 ≤ first.length ∧ first.length ≤ 8 ∧ first.toList.all Char.isAlpha
        ∧ rest.all (fun t =>
            decide (1 ≤ t.length ∧ t.length ≤ 8 ∧ t.toList.all Char.isAlphanum))
    then some (first :: rest)
    else none

/-- Modelled from the spec: LanguageTags::from_locale plus
LanguageTag::matches (cond.rs 87-120) depend on the external locale_config
and language_tags crates.  The locale is modelled as its already-parsed list
of accepted language ranges, and basic range matching is subtag-prefix
matching, so the range de matches the tag de-LU but en-US does not match
en-GB. -/
def locale_accepts_language_tag (locale : List (List String)) (tag : List String) : Bool :=
  locale.any (fun range => range.isPrefixOf tag)

/-- Source SystemLanguage::from_attribute (cond.rs 141-165), the try_fold
over the comma-separated, trimmed tokens: a token that fails to parse is a
hard error; otherwise the accumulator records whether some earlier token
already matched, and if not the current token is matched against the
locale. -/
def SystemLanguage.try_fold (locale : List (List String)) :
    Bool → List String → Except ValueErrorKind Bool
  | acc, [] => .ok acc
  | acc, tok :: rest =>
    match LanguageTag.from_str tok with
    | some tag =>
      SystemLanguage.try_fold locale
        (if acc then acc else locale_accepts_language_tag locale tag) rest
    | none => .error (.parseError "invalid language tag")

/-- Source SystemLanguage::from_attribute (cond.rs 141-165): split on commas,
trim each token, and fold as above starting from no match. -/
def SystemLanguage.from_attribute (s : String) (locale : List (List String)) :
    Except ValueErrorKind Bool :=
  SystemLanguage.try_fold locale false ((splitOnString ',' s).map trimString)

/-- The comma-separated, trimmed token list of a systemLanguage value. -/
def sys_language_tokens (s : String) : List String :=
  (splitOnString ',' s).map trimString

/-- Claim C5 reading of SystemLanguage::from_attribute: an error iff some
token fails to parse as a language tag, otherwise true iff at least one
parsed token matches one of the locale's accepted ranges. -/
def claim_system_language (s : String) (locale : List (List String)) :
    Except ValueErrorKind Bool :=
  if (sys_language_tokens s).all (fun t => (LanguageTag.from_str t).isSome)
  then .ok ((sys_language_tokens s).any (fun t =>
      match LanguageTag.from_str t with
      | some tag => locale_accepts_language_tag locale tag
      | none => false))
  else .error (.parseError "invalid language tag")

/-!
## Attribute resolution, from rsvg_internals/src/node.rs 364-470
-/

/-- Source Node::parse_conditional_processing_attributes (node.rs 405-443).
The accumulated flag cond starts from the node's current cond value; each
conditional-processing attribute is evaluated only when cond is still true
(the if cond match guards).  Besides the final flag we also return the list
of conditional-processing attributes that were actually evaluated, which in
the source is the set of match arms executed. -/
def parse_conditional_processing_attributes (locale : List (List String)) :
    Bool → List (Attribute × String) →
      Except NodeError (Bool × List (Attribute × String))
  | cond, [] => .ok (cond, [])
  | cond, (attr, value) :: rest =>
    match attr, cond with
    | .RequiredExtensions, true =>
      match parse_conditional_processing_attributes locale
          (RequiredExtensions.from_attribute value) rest with
      | .ok (b, t) => .ok (b, (Attribute.RequiredExtensions, value) :: t)
      | .error e => .error e
    | .RequiredFeatures, true =>
      match parse_conditional_processing_attributes locale
          (RequiredFeatures.from_attribute value) rest with
      | .ok (b, t) => .ok (b, (Attribute.RequiredFeatures, value) :: t)
      | .error e => .error e
    | .SystemLanguage, true =>
      match SystemLanguage.from_attribute value locale with
      | .ok c =>
        match parse_conditional_processing_attributes locale c rest with
        | .ok (b, t) => .ok (b, (Attribute.SystemLanguage, value) :: t)
        | .error e => .error e
      | .error e => .error ⟨Attribute.SystemLanguage, e⟩
    | _, _ => parse_conditional_processing_attributes locale cond rest

/-- An affine matrix as produced by the transform parser (cairo::Matrix). -/
structure Matrix where
  xx : ℚ
  yx : ℚ
  xy : ℚ
  yy : ℚ
  x0 : ℚ
  y0 : ℚ
deriving DecidableEq

/-- Modelled from the spec: Matrix::parse_str, the transform-list parser in
the parsers module, is not among the given sources.  The spec only requires
a parser from strings to affine matrices that fails on invalid syntax; we
model it as reading exactly six whitespace-separated natural numbers as the
six matrix entries and failing on anything else. -/
def Matrix.parse_str (s : String) : Option Matrix :=
  match (splitWhitespace s).mapM parseNatDigits with
  | some [a, b, c, d, e, f] => some ⟨(a : ℚ), (b : ℚ), (c : ℚ), (d : ℚ), (e : ℚ), (f : ℚ)⟩
  | _ => none

/-- Source Node::set_transform_attribute (node.rs 364-378): scan the property
bag and, on the first Transform attribute encountered, return the result of
parsing it (success stores the matrix, failure is an AttributeError tagged
Transform); remaining entries are never looked at.  A bag without a
Transform attribute leaves the transform untouched (ok none). -/
def set_transform_attribute : List (Attribute × String) → Except NodeError (Option Matrix)
  | [] => .ok none
  | (attr, value) :: rest =>
    match attr with
    | .Transform =>
      match Matrix.parse_str value with
      | some m => .ok (some m)
      | none => .error ⟨Attribute.Transform, .parseError value⟩
    | _ => set_transform_attribute rest

inductive Step where
  | transform
  | condProc
  | elementSpecific
  | presentation
deriving DecidableEq

/-- Source Node::set_presentation_attributes (node.rs 446-470): the result of
SpecifiedValues::parse_presentation_attributes (a parameter here, since
properties.rs is outside the given sources) is inspected, and an error is
deliberately swallowed: it is logged and Ok is returned. -/
def set_presentation_attributes (presResult : Except NodeError Unit) : Except NodeError Unit :=
  match presResult with
  | .ok _ => .ok ()
  | .error _ => .ok ()

/-- Source Node::set_atts (node.rs 392-403): the and_then chain over the four
steps.  elementResult stands for the element-specific
NodeTrait::set_atts outcome and presResult for the presentation-attribute
parse outcome, both external to the given sources.  The model returns the
list of steps that were executed together with the node's final error state
(the argument of Node::set_error, or none); set_atts itself is total. -/
def set_atts (pbag : List (Attribute × String)) (locale : List (List String))
    (elementResult presResult : Except NodeError Unit) :
    List Step × Option NodeError :=
  match set_transform_attribute pbag with
  | .error e => ([.transform], some e)
  | .ok _ =>
    match parse_conditional_processing_attributes locale true pbag with
    | .error e => ([.transform, .condProc], some e)
    | .ok _ =>
      match elementResult with
      | .error e => ([.transform, .condProc, .elementSpecific], some e)
      | .ok _ =>
        match set_presentation_attributes presResult with
        | .error e => ([.transform, .condProc, .elementSpecific, .presentation], some e)
        | .ok _ => ([.transform, .condProc, .elementSpecific, .presentation], none)

/-!
## CSS selector application, from rsvg_internals/src/node.rs 472-584

The state type S stands for the pair of the node's SpecifiedValues and its
important_styles set, D for one CSS declaration, and applyDecl for
SpecifiedValues::set_property_from_declaration, which already implements the
important-declaration blocking.  css_rules is CssRules::lookup.
-/

/-- Source try_apply_by_selector (node.rs 710-725): if the rule table has an
entry for the selector, apply each of its declarations in order and report
true; otherwise leave the state alone and report false. -/
def try_apply_by_selector {S D : Type} (css_rules : String → Option (List D))
    (applyDecl : S → D → S) (selector : String) (s : S) : S × Bool :=
  match css_rules selector with
  | some decls => (decls.foldl applyDecl s, true)
  | none => (s, false)

/-- Source Node::set_css_styles, the body of the per-class-token loop
(node.rs 494-544).  found is threaded exactly as in the source, where
found = found or-else try_apply means that a later lookup of the three
specific selectors is not even attempted once an earlier one matched. -/
def apply_class_token {S D : Type} (css_rules : String → Option (List D))
    (applyDecl : S → D → S) (tag : String) (id : Option String) (cls : String)
    (s : S) : S :=
  if cls = "" then s
  else
    let st1 : S × Bool :=
      match id with
      | some i => try_apply_by_selector css_rules applyDecl (tag ++ "." ++ cls ++ "#" ++ i) s
      | none => (s, false)
    let st2 : S × Bool :=
      if st1.2 then st1
      else
        match id with
        | some i => try_apply_by_selector css_rules applyDecl ("." ++ cls ++ "#" ++ i) st1.1
        | none => st1
    let st3 : S × Bool :=
      if st2.2 then st2
      else try_apply_by_selector css_rules applyDecl (tag ++ "." ++ cls) st2.1
    if st3.2 then st3.1
    else (try_apply_by_selector css_rules applyDecl ("." ++ cls) st3.1).1

/-- Source Node::set_css_styles (node.rs 473-556): universal selector, tag
selector, the per-class-token block, then the id and tag#id selectors. -/
def set_css_styles {S D : Type} (css_rules : String → Option (List D))
    (applyDecl : S → D → S) (tag : String) (cls id : Option String) (s : S) : S :=
  let s1 := (try_apply_by_selector css_rules applyDecl "*" s).1
  let s2 := (try_apply_by_selector css_rules applyDecl tag s1).1
  let s3 :=
    match cls with
    | some klazz =>
      (splitWhitespace klazz).foldl
        (fun acc c => apply_class_token css_rules applyDecl tag id c acc) s2
    | none => s2
  match id with
  | some i =>
    let s4 := (try_apply_by_selector css_rules applyDecl ("#" ++ i) s3).1
    (try_apply_by_selector css_rules applyDecl (tag ++ "#" ++ i) s4).1
  | none => s3

/-- Source Node::set_style (node.rs 581-584): set_css_styles followed by
set_style_attribute.  SpecifiedValues::parse_style_declarations is outside
the given sources, so the inline style attribute is modelled as the list of
declarations it yields, applied in order after every rule bucket. -/
def set_style {S D : Type} (css_rules : String → Option (List D))
    (applyDecl : S → D → S) (tag : String) (cls id : Option String)
    (style_attr : List D) (s : S) : S :=
  style_attr.foldl applyDecl (set_css_styles css_rules applyDecl tag cls id s)

/-- Claim C2 reading of the class-token step: all three of tag.class#id,
.class#id and tag.class are applied in that order whenever the rule table
has them, and the bare .class selector is applied only if none of the three
matched. -/
def claim_apply_class_token {S D : Type} (css_rules : String → Option (List D))
    (applyDecl : S → D → S) (tag : String) (id : Option String) (cls : String)
    (s : S) : S :=
  if cls = "" then s
  else
    let sels : List String :=
      (match id with
       | some i => [tag ++ "." ++ cls ++ "#" ++ i, "." ++ cls ++ "#" ++ i]
       | none => []) ++ [tag ++ "." ++ cls]
    let st := sels.foldl
      (fun (acc : S × Bool) sel =>
        let r := try_apply_by_selector css_rules applyDecl sel acc.1
        (r.1, acc.2 || r.2)) (s, false)
    if st.2 then st.1
    else (try_apply_by_selector css_rules applyDecl ("." ++ cls) st.1).1

/-- Claim C2 reading of set_style: like set_style but with every matching
class selector applied. -/
def claim_set_style {S D : Type} (css_rules : String → Option (List D))
    (applyDecl : S → D → S) (tag : String) (cls id : Option String)
    (style_attr : List D) (s : S) : S :=
  let s1 := (try_apply_by_selector css_rules applyDecl "*" s).1
  let s2 := (try_apply_by_selector css_rules applyDecl tag s1).1
  let s3 :=
    match cls with
    | some klazz =>
      (splitWhitespace klazz).foldl
        (fun acc c => claim_apply_class_token css_rules applyDecl tag id c acc) s2
    | none => s2
  let s4 :=
    match id with
    | some i =>
      let x := (try_apply_by_selector css_rules applyDecl ("#" ++ i) s3).1
      (try_apply_by_selector css_rules applyDecl (tag ++ "#" ++ i) x).1
    | none => s3
  style_attr.foldl applyDecl s4

/-- Amended class-token step: among tag.class#id, .class#id and tag.class
only the first selector with an entry in the rule table is applied (the
others are skipped), and the bare .class selector is applied only when none
of the three has an entry. -/
def amended_apply_class_token {S D : Type} (css_rules : String → Option (List D))
    (applyDecl : S → D → S) (tag : String) (id : Option String) (cls : String)
    (s : S) : S :=
  if cls = "" then s
  else
    let sels : List String :=
      (match id with
       | some i => [tag ++ "." ++ cls ++ "#" ++ i, "." ++ cls ++ "#" ++ i]
       | none => []) ++ [tag ++ "." ++ cls]
    match sels.find? (fun sel => (css_rules sel).isSome) with
    | some sel => (try_apply_by_selector css_rules applyDecl sel s).1
    | none => (try_apply_by_selector css_rules applyDecl ("." ++ cls) s).1

/-- Amended reading of set_style, with the first-match class-token step. -/
def amended_set_style {S D : Type} (css_rules : String → Option (List D))
    (applyDecl : S → D → S) (tag : String) (cls id : Option String)
    (style_attr : List D) (s : S) : S :=
  let s1 := (try_apply_by_selector css_rules applyDecl "*" s).1
  let s2 := (try_apply_by_selector css_rules applyDecl tag s1).1
  let s3 :=
    match cls with
    | some klazz =>
      (splitWhitespace klazz).foldl
        (fun acc c => amended_apply_class_token css_rules applyDecl tag id c acc) s2
    | none => s2
  let s4 :=
    match id with
    | some i =>
      let x := (try_apply_by_selector css_rules applyDecl ("#" ++ i) s3).1
      (try_apply_by_selector css_rules applyDecl (tag ++ "#" ++ i) x).1
    | none => s3
  style_attr.foldl applyDecl s4

/-- A concrete rule table for the C2 counterexample: both rect.a#x and
rect.a carry one declaration. -/
def exampleRules : String → Option (List String) :=
  fun sel =>
    if sel = "rect.a#x" then some ["d1"]
    else if sel = "rect.a" then some ["d2"]
    else none

/-- A concrete declaration-application function that records the order in
which declarations are applied. -/
def applyTrace (s : List String) (d : String) : List String := s ++ [d]

/-!
## Computed values used by the text pipeline

properties.rs is outside the given sources; the fields below are the
accessors text.rs actually calls, modelled from the spec: a display flag, the
xml:space mode, the text-anchor, the writing-mode and a baseline-shift
already converted to user units.
-/

inductive TextAnchor where
  | Start
  | Middle
  | End
deriving DecidableEq

inductive WritingMode where
  | LrTb
  | Lr
  | RlTb
  | Rl
  | Tb
  | TbRl
deriving DecidableEq

/-- Modelled from the spec: WritingMode::is_vertical lives in the property
definitions outside the given sources; the top-to-bottom modes Tb and TbRl
are the vertical ones (matching the gravity mapping in text.rs 806-815). -/
def WritingMode.is_vertical : WritingMode → Bool
  | .Tb | .TbRl => true
  | _ => false

inductive XmlSpace where
  | Default
  | Preserve
deriving DecidableEq

structure ComputedValues where
  display : Bool
  xml_space : XmlSpace
  text_anchor : TextAnchor
  writing_mode : WritingMode
  baseline_shift : ℚ
deriving DecidableEq

/-- Modelled from the spec: ComputedValues::is_displayed is the accessor for
the display property (display none means not displayed). -/
def ComputedValues.is_displayed (v : ComputedValues) : Bool := v.display

/-!
## Text layout phase 1: chunk construction, from src/text.rs
-/

structure Span where
  values : ComputedValues
  text : String
  dx : ℚ
  dy : ℚ
  depth : ℕ
deriving DecidableEq

structure Chunk where
  values : ComputedValues
  x : Option ℚ
  y : Option ℚ
  spans : List Span
deriving DecidableEq

/-- Modelled from the spec: the default-mode branch of xml_space_normalize
(space.rs, outside the given sources) collapses internal whitespace runs to
single spaces and trims an edge only when no sibling element is adjacent to
it. -/
def collapse_whitespace (s : String) : String :=
  (s.toList.foldl
    (fun (acc : String × Bool) c =>
      if c.isWhitespace then (if acc.2 then acc else (acc.1.push ' ', true))
      else (acc.1.push c, false))
    ("", false)).1

/-- Modelled from the spec: xml_space_normalize (space.rs): preserve keeps
the text verbatim; default collapses whitespace runs and trims the edges
away from sibling elements. -/
def xml_space_normalize (mode : XmlSpace) (has_element_before has_element_after : Bool)
    (s : String) : String :=
  match mode with
  | .Preserve => s
  | .Default =>
    let t := collapse_whitespace s
    let t2 := if has_element_before then t
      else String.mk (t.toList.dropWhile Char.isWhitespace)
    if has_element_after then t2
    else String.mk (t2.toList.reverse.dropWhile Char.isWhitespace).reverse

/-- The text subtree as walked by children_to_chunks: character data, tspan
and tref elements (each with its own cascaded computed values), and any
other element kind, which the walk skips.  x, y, dx and dy are already in
user units. -/
inductive TNode where
  | chars (raw : String)
  | tspan (values : ComputedValues) (x y : Option ℚ) (dx dy : ℚ) (children : List TNode)
  | tref (values : ComputedValues) (link : Option String) (children : List TNode)
  | other (values : ComputedValues) (children : List TNode)

def childrenOf : TNode → List TNode
  | .chars _ => []
  | .tspan _ _ _ _ _ cs => cs
  | .tref _ _ cs => cs
  | .other _ cs => cs

/-- Source Chars::make_span (text.rs 417-438): normalize the raw text (the
sibling flags come from previous_sibling and next_sibling of the Chars
node); an empty normalized string yields no span. -/
def Chars.make_span (values : ComputedValues) (has_prev has_next : Bool)
    (raw : String) (dx dy : ℚ) (depth : ℕ) : Option Span :=
  let normalized := xml_space_normalize values.xml_space has_prev has_next raw
  if normalized = "" then none
  else some ⟨values, normalized, dx, dy, depth⟩

/-- Push a span onto the spans of the last chunk of the list (the source
writes chunks[num_chunks - 1].spans.push(span)). -/
def pushSpanLast (sp : Span) : List Chunk → List Chunk
  | [] => []
  | [c] => [{ c with spans := c.spans ++ [sp] }]
  | c :: rest => c :: pushSpanLast sp rest

/-- Source Chars::to_chunks (text.rs 440-455).  The assertion
num_chunks > 0 is modelled by returning none when the chunk list is
empty and a span has to be pushed. -/
def Chars.to_chunks (values : ComputedValues) (has_prev has_next : Bool)
    (raw : String) (chunks : List Chunk) (dx dy : ℚ) (depth : ℕ) :
    Option (List Chunk) :=
  match Chars.make_span values has_prev has_next raw dx dy depth with
  | none => some chunks
  | some sp =>
    match chunks with
    | [] => none
    | _ :: _ => some (pushSpanLast sp chunks)

/-- Source extract_chars_children_to_chunks_recursively (text.rs 626-643),
as the loop over a node's children: a Chars child contributes a span with
the referencing element's values and zero dx/dy; any other child is recursed
into at depth + 1.  The sibling flags for normalization are positions in the
target's child list. -/
def extract_list (values : ComputedValues) :
    List TNode → ℕ → Bool → List Chunk → Option (List Chunk)
  | [], _, _, chunks => some chunks
  | TNode.chars raw :: rest, depth, has_prev, chunks =>
    match Chars.to_chunks values has_prev (!rest.isEmpty) raw chunks 0 0 depth with
    | none => none
    | some c2 => extract_list values rest depth true c2
  | TNode.tspan _ _ _ _ _ cs :: rest, depth, _, chunks =>
    match extract_list values cs (depth + 1) false chunks with
    | none => none
    | some c2 => extract_list values rest depth true c2
  | TNode.tref _ _ cs :: rest, depth, _, chunks =>
    match extract_list values cs (depth + 1) false chunks with
    | none => none
    | some c2 => extract_list values rest depth true c2
  | TNode.other _ cs :: rest, depth, _, chunks =>
    match extract_list values cs (depth + 1) false chunks with
    | none => none
    | some c2 => extract_list values rest depth true c2

/-- Source extract_chars_children_to_chunks_recursively (text.rs 626-643). -/
def extract_chars_children_to_chunks_recursively (values : ComputedValues)
    (t : TNode) (depth : ℕ) (chunks : List Chunk) : Option (List Chunk) :=
  extract_list values (childrenOf t) depth false chunks

/-- Source TRef::to_chunks (text.rs 589-623): no link means no contribution;
an undisplayed tref contributes nothing; a resolvable link flattens the
target with the tref's own cascaded values; a dangling link logs and
contributes nothing. -/
def TRef.to_chunks (env : String → Option TNode) (values : ComputedValues)
    (link : Option String) (depth : ℕ) (chunks : List Chunk) :
    Option (List Chunk) :=
  match link with
  | none => some chunks
  | some id =>
    if !values.is_displayed then some chunks
    else
      match env id with
      | some target => extract_chars_children_to_chunks_recursively values target depth chunks
      | none => some chunks

mutual
/-- Source children_to_chunks (text.rs 309-352): walk the children in order;
character data becomes a span in the most recently opened chunk with the
parent's cascaded values; a tspan or tref child is dispatched at
depth + 1; other element kinds are skipped. -/
def children_to_chunks (env : String → Option TNode) (parentValues : ComputedValues)
    (dx dy : ℚ) (depth : ℕ) :
    List TNode → Bool → List Chunk → Option (List Chunk)
  | [], _, chunks => some chunks
  | TNode.chars raw :: rest, has_prev, chunks =>
    match Chars.to_chunks parentValues has_prev (!rest.isEmpty) raw chunks dx dy depth with
    | none => none
    | some c2 => children_to_chunks env parentValues dx dy depth rest true c2
  | TNode.tspan v x y sdx sdy cs :: rest, _, chunks =>
    match TSpan.to_chunks env v x y sdx sdy cs dx dy (depth + 1) chunks with
    | none => none
    | some c2 => children_to_chunks env parentValues dx dy depth rest true c2
  | TNode.tref v l _ :: rest, _, chunks =>
    match TRef.to_chunks env v l (depth + 1) chunks with
    | none => none
    | some c2 => children_to_chunks env parentValues dx dy depth rest true c2
  | TNode.other _ _ :: rest, _, chunks =>
    children_to_chunks env parentValues dx dy depth rest true chunks
termination_by l _ _ => (sizeOf l, 0)

/-- Source TSpan::to_chunks (text.rs 670-709): an undisplayed tspan
contributes nothing; otherwise its dx/dy are accumulated, a new chunk is
opened iff it declares an absolute x or y, and its children are walked with
its own cascaded values. -/
def TSpan.to_chunks (env : String → Option TNode) (values : ComputedValues)
    (x y : Option ℚ) (sdx sdy : ℚ) (cs : List TNode) (dx dy : ℚ) (depth : ℕ)
    (chunks : List Chunk) : Option (List Chunk) :=
  if !values.is_displayed then some chunks
  else
    children_to_chunks env values (dx + sdx) (dy + sdy) depth cs false
      (if x.isSome || y.isSome then chunks ++ [⟨values, x, y, []⟩] else chunks)
termination_by (sizeOf cs, 1)
end

/-- Source Text::make_chunks (text.rs 471-502): push the initial chunk,
anchored at the text element's x and y, then walk the children. -/
def Text.make_chunks (env : String → Option TNode) (values : ComputedValues)
    (cs : List TNode) (x y dx dy : ℚ) : Option (List Chunk) :=
  children_to_chunks env values dx dy 0 cs false [⟨values, some x, some y, []⟩]

/-- Append a list of spans onto the spans of the last chunk. -/
def pushSpansLast (sps : List Span) : List Chunk → List Chunk
  | [] => []
  | [c] => [{ c with spans := c.spans ++ sps }]
  | c :: rest => c :: pushSpansLast sps rest

/-- Specification-side description of the tref flattening: the flat list of
spans obtained from all character data in a child list, descendant-first, in
document order, each span carrying the given (referencing) values and zero
dx/dy. -/
def flatten_chars (values : ComputedValues) :
    List TNode → ℕ → Bool → List Span
  | [], _, _ => []
  | TNode.chars raw :: rest, depth, has_prev =>
    (match Chars.make_span values has_prev (!rest.isEmpty) raw 0 0 depth with
     | none => []
     | some sp => [sp]) ++ flatten_chars values rest depth true
  | TNode.tspan _ _ _ _ _ cs :: rest, depth, _ =>
    flatten_chars values cs (depth + 1) false ++ flatten_chars values rest depth true
  | TNode.tref _ _ cs :: rest, depth, _ =>
    flatten_chars values cs (depth + 1) false ++ flatten_chars values rest depth true
  | TNode.other _ cs :: rest, depth, _ =>
    flatten_chars values cs (depth + 1) false ++ flatten_chars values rest depth true

mutual
/-- Specification-side count of the chunks opened while walking one node: a
displayed tspan opens one chunk when it declares an absolute x or y, plus
whatever its children open; nothing else opens chunks. -/
def opens_chunk_count : TNode → ℕ
  | .chars _ => 0
  | .tspan v x y _ _ cs =>
    if v.is_displayed then
      (if x.isSome || y.isSome then 1 else 0) + opens_chunk_count_list cs
    else 0
  | .tref _ _ _ => 0
  | .other _ _ => 0

def opens_chunk_count_list : List TNode → ℕ
  | [] => 0
  | c :: rest => opens_chunk_count c + opens_chunk_count_list rest
end

/-- Claim C7 reading of which children open a chunk: any tspan declaring an
absolute x or y. -/
def claim_opens_chunk : TNode → Bool
  | .tspan _ x y _ _ _ => x.isSome || y.isSome
  | _ => false

/-!
## Text layout phase 3: positioning, from src/text.rs 116-252

The pango layout handle and the shaping backend are external; a measured
span carries the advance vector the backend returned, its dx/dy, and the
shaped run's baseline (layout.baseline, in user units).  Coordinates use
rationals as the exact model of the real-valued positioning arithmetic.
-/

structure MeasuredSpan where
  values : ComputedValues
  advance : ℚ × ℚ
  dx : ℚ
  dy : ℚ
  baseline : ℚ
deriving DecidableEq

structure MeasuredChunk where
  values : ComputedValues
  x : Option ℚ
  y : Option ℚ
  advance : ℚ × ℚ
  spans : List MeasuredSpan
deriving DecidableEq

structure PositionedSpan where
  values : ComputedValues
  position : ℚ × ℚ
  rendered_position : ℚ × ℚ
  next_span_x : ℚ
  next_span_y : ℚ
deriving DecidableEq

structure PositionedChunk where
  next_chunk_x : ℚ
  next_chunk_y : ℚ
  spans : List PositionedSpan
deriving DecidableEq

/-- Source text_anchor_advance (text.rs 155-173). -/
def text_anchor_advance (anchor : TextAnchor) (writing_mode : WritingMode)
    (advance : ℚ × ℚ) : ℚ × ℚ :=
  if writing_mode.is_vertical then
    match anchor with
    | .Start => (0, 0)
    | .Middle => (0, -(advance.2 / 2))
    | .End => (0, -advance.2)
  else
    match anchor with
    | .Start => (0, 0)
    | .Middle => (-(advance.1 / 2), 0)
    | .End => (-advance.1, 0)

/-- Source PositionedSpan::from_measured (text.rs 219-252): the baseline
offset shifts the rendered position along the cross axis, and the advance
plus dx/dy determine the next span's start. -/
def PositionedSpan.from_measured (measured : MeasuredSpan) (x y : ℚ) : PositionedSpan :=
  let offset := measured.baseline + measured.values.baseline_shift
  let rp : ℚ × ℚ :=
    if measured.values.writing_mode.is_vertical then
      (x + offset + measured.dx, y + measured.dy)
    else
      (x + measured.dx, y - offset + measured.dy)
  { values := measured.values
    position := (x, y)
    rendered_position := rp
    next_span_x := x + measured.advance.1 + measured.dx
    next_span_y := y + measured.advance.2 + measured.dy }

/-- Source PositionedChunk::from_measured, the span loop (text.rs 138-145):
each span is positioned at the running position, which then advances to the
span's end. -/
def layout_spans (x y : ℚ) : List MeasuredSpan → List PositionedSpan × ℚ × ℚ
  | [] => ([], x, y)
  | ms :: rest =>
    let ps := PositionedSpan.from_measured ms x y
    let r := layout_spans ps.next_span_x ps.next_span_y rest
    (ps :: r.1, r.2)

/-- Source PositionedChunk::from_measured (text.rs 117-152): adjust the
chunk's starting position by the text-anchor correction, then lay the spans
out in sequence; the final running position becomes the next chunk's default
anchor. -/
def PositionedChunk.from_measured (measured : MeasuredChunk) (x y : ℚ) : PositionedChunk :=
  let adjusted := text_anchor_advance measured.values.text_anchor
    measured.values.writing_mode measured.advance
  let r := layout_spans (x + adjusted.1) (y + adjusted.2) measured.spans
  { next_chunk_x := r.2.1, next_chunk_y := r.2.2, spans := r.1 }

/-!
## Concrete fixtures for the testable properties
-/

def cvPlain : ComputedValues := ⟨true, .Default, .Start, .LrTb, 0⟩

def cvSpan : ComputedValues := ⟨true, .Default, .Start, .LrTb, 1⟩

def cvHidden : ComputedValues := ⟨false, .Default, .Start, .LrTb, 0⟩

def cvMiddle : ComputedValues := ⟨true, .Default, .Middle, .LrTb, 0⟩

def envEmpty : String → Option TNode := fun _ => none

/-- The document text A, tspan x equal 10 containing B, then C. -/
def exampleChildren : List TNode :=
  [TNode.chars "A",
   TNode.tspan cvSpan (some 10) none 0 0 [TNode.chars "B"],
   TNode.chars "C"]

/-- The same document but with the tspan's computed display turned off. -/
def hiddenChildren : List TNode :=
  [TNode.chars "A",
   TNode.tspan cvHidden (some 10) none 0 0 [TNode.chars "B"],
   TNode.chars "C"]

/-- A tref target with nested sub-element structure around its character
data. -/
def trefTarget : TNode :=
  TNode.other cvSpan [TNode.chars "B", TNode.other cvSpan [TNode.chars "D"]]

def envTref : String → Option TNode :=
  fun id => if id = "t" then some trefTarget else none

/-- A locale accepting the language ranges de and en-US. -/
def deLocale : List (List String) := [["de"], ["en", "us"]]

/-- A horizontal measured chunk with total advance (100, 0), anchor middle,
one span. -/
def mc100 : MeasuredChunk :=
  ⟨cvMiddle, none, none, (100, 0), [⟨cvMiddle, (100, 0), 0, 0, 0⟩]⟩

/-- A property bag with two transform attributes carrying different valid
transforms. -/
def dupTransformBag : List (Attribute × String) :=
  [(Attribute.Transform, "2 0 0 2 0 0"), (Attribute.Transform, "3 0 0 3 0 0")]

/-!
## Theorems
-/

mutual
theorem cascade_idem {σ γ : Type} (merge : γ → σ → γ) :
    ∀ (t : NTree σ γ) (v : γ),
      Node.cascade merge (Node.cascade merge t v) v = Node.cascade merge t v
  | .node d cs, v => by
    simp only [Node.cascade]
    rw [cascadeChildren_idem merge cs (merge v d.specified_values)]

theorem cascadeChildren_idem {σ γ : Type} (merge : γ → σ → γ) :
    ∀ (cs : List (NTree σ γ)) (v : γ),
      Node.cascadeChildren merge (Node.cascadeChildren merge cs v) v =
        Node.cascadeChildren merge cs v
  | [], _ => by simp only [Node.cascadeChildren]
  | c :: cs, v => by
    simp only [Node.cascadeChildren]
    rw [cascade_idem merge c v, cascadeChildren_idem merge cs v]
end

/-- C1: Node::cascade is a pure function of the inherited computed values and
the node's specified values: at every node it stores
merge(inherited, specified) as the node's computed values and recurses into
each child with this node's just-computed values; and re-running cascade on
the unchanged result tree with the same inherited values reproduces exactly
the same computed values at every node. -/
theorem cascade_merges_and_rerun_is_identical :
    ∀ (σ γ : Type) (merge : γ → σ → γ) (d : NodeData σ γ) (cs : List (NTree σ γ))
      (inherited : γ),
      (Node.cascade merge (NTree.node d cs) inherited =
        NTree.node ⟨d.specified_values, merge inherited d.specified_values⟩
          (Node.cascadeChildren merge cs (merge inherited d.specified_values))) ∧
      (∀ (t : NTree σ γ) (v : γ),
        Node.cascade merge (Node.cascade merge t v) v = Node.cascade merge t v) := by
  intro σ γ merge d cs inherited
  exact ⟨by simp only [Node.cascade], fun t v => cascade_idem merge t v⟩

/-- C6 counterexample: on a property bag with two transform attributes the
source uses the value of the first occurrence, not the later one: the bag
with transforms parsing to the matrices scale-2 and scale-3 yields the
scale-2 matrix, although both occurrences parse successfully and the claim
would require the scale-3 matrix. -/
theorem set_transform_attribute_first_wins_counterexample :
    set_transform_attribute dupTransformBag = .ok (some ⟨2, 0, 0, 2, 0, 0⟩) ∧
    Matrix.parse_str "3 0 0 3 0 0" = some ⟨3, 0, 0, 3, 0, 0⟩ ∧
    set_transform_attribute dupTransformBag ≠ .ok (some ⟨3, 0, 0, 3, 0, 0⟩) := by
  refine ⟨by decide, by decide, by decide⟩

/-- C6 amended: the transform-parsing step of set_atts uses the value of the
first transform attribute in the bag (later occurrences are never looked
at); if that occurrence has invalid transform syntax the result is an
AttributeError tagged with the transform attribute name, and a bag without a
transform attribute leaves the transform unchanged. -/
theorem set_transform_attribute_uses_first_occurrence :
    ∀ (pbag : List (Attribute × String)),
      set_transform_attribute pbag =
        match pbag.find? (fun p => decide (p.1 = Attribute.Transform)) with
        | none => .ok none
        | some p =>
          match Matrix.parse_str p.2 with
          | some m => .ok (some m)
          | none => .error ⟨Attribute.Transform, .parseError p.2⟩ := by
  intro pbag
  induction pbag with
  | nil => rfl
  | cons p rest ih =>
    obtain ⟨attr, value⟩ := p
    cases attr <;> simp [set_transform_attribute, List.find?, ih]

theorem parse_cond_false (locale : List (List String)) :
    ∀ (bag : List (Attribute × String)),
      parse_conditional_processing_attributes locale false bag = .ok (false, []) := by
  intro bag
  induction bag with
  | nil => rfl
  | cons p rest ih =>
    obtain ⟨attr, value⟩ := p
    cases attr <;> simpa [parse_conditional_processing_attributes] using ih

theorem parse_cond_append (locale : List (List String))
    (bag1 : List (Attribute × String)) :
    ∀ (c : Bool) (bag2 : List (Attribute × String)),
      parse_conditional_processing_attributes locale c (bag1 ++ bag2) =
        match parse_conditional_processing_attributes locale c bag1 with
        | .ok (b, t) =>
          (match parse_conditional_processing_attributes locale b bag2 with
           | .ok (b2, t2) => .ok (b2, t ++ t2)
           | .error e => .error e)
        | .error e => .error e := by
  induction bag1 with
  | nil =>
    intro c bag2
    simp only [List.nil_append, parse_conditional_processing_attributes]
    cases parse_conditional_processing_attributes locale c bag2 with
    | error e => rfl
    | ok p => obtain ⟨b2, t2⟩ := p; rfl
  | cons p rest ih =>
    intro c bag2
    obtain ⟨attr, value⟩ := p
    have step : ∀ (c2 : Bool) (pre : Attribute × String),
        (match parse_conditional_processing_attributes locale c2 (rest ++ bag2) with
         | .ok (b, t) =>
           (.ok (b, pre :: t) : Except NodeError (Bool × List (Attribute × String)))
         | .error e => .error e) =
        match (match parse_conditional_processing_attributes locale c2 rest with
               | .ok (b, t) =>
                 (.ok (b, pre :: t) : Except NodeError (Bool × List (Attribute × String)))
               | .error e => .error e) with
        | .ok (b, t) =>
          (match parse_conditional_processing_attributes locale b bag2 with
           | .ok (b2, t2) => .ok (b2, t ++ t2)
           | .error e => .error e)
        | .error e => .error e := by
      intro c2 pre
      rw [ih c2 bag2]
      cases parse_conditional_processing_attributes locale c2 rest with
      | error e => rfl
      | ok p2 =>
        obtain ⟨b, t⟩ := p2
        dsimp only
        cases parse_conditional_processing_attributes locale b bag2 with
        | error e => rfl
        | ok p3 => obtain ⟨b2, t2⟩ := p3; rfl
    cases attr <;> cases c <;>
      simp only [List.cons_append, parse_conditional_processing_attributes] <;>
      first
        | exact ih _ bag2
        | exact step _ _
        | (cases h1 : SystemLanguage.from_attribute value locale with
           | error e => simp [h1]
           | ok cnew => dsimp only; exact step cnew _)

theorem parse_cond_trace_sublist (locale : List (List String)) :
    ∀ (bag : List (Attribute × String)) (c b : Bool)
      (t : List (Attribute × String)),
      parse_conditional_processing_attributes locale c bag = .ok (b, t) →
        t.Sublist bag := by
  intro bag
  induction bag with
  | nil =>
    intro c b t h
    simp only [parse_conditional_processing_attributes, Except.ok.injEq, Prod.mk.injEq] at h
    simp [h.2.symm]
  | cons p rest ih =>
    intro c b t h
    obtain ⟨attr, value⟩ := p
    cases attr <;> cases c <;>
      simp only [parse_conditional_processing_attributes] at h
    case Transform.false | Transform.true | Style.false | Style.true
      | RequiredExtensions.false | RequiredFeatures.false | SystemLanguage.false
      | Other.false | Other.true =>
      exact (ih _ _ _ h).cons _
    case RequiredExtensions.true =>
      cases h2 : parse_conditional_processing_attributes locale
          (RequiredExtensions.from_attribute value) rest with
      | error e => rw [h2] at h; exact absurd h (by simp)
      | ok p2 =>
        obtain ⟨b2, t2⟩ := p2
        rw [h2] at h
        simp only [Except.ok.injEq, Prod.mk.injEq] at h
        rw [← h.2]
        exact (ih _ _ _ h2).cons₂ _
    case RequiredFeatures.true =>
      cases h2 : parse_conditional_processing_attributes locale
          (RequiredFeatures.from_attribute value) rest with
      | error e => rw [h2] at h; exact absurd h (by simp)
      | ok p2 =>
        obtain ⟨b2, t2⟩ := p2
        rw [h2] at h
        simp only [Except.ok.injEq, Prod.mk.injEq] at h
        rw [← h.2]
        exact (ih _ _ _ h2).cons₂ _
    case SystemLanguage.true =>
      cases h1 : SystemLanguage.from_attribute value locale with
      | error e => rw [h1] at h; exact absurd h (by simp)
      | ok cnew =>
        rw [h1] at h
        dsimp only at h
        cases h2 : parse_conditional_processing_attributes locale cnew rest with
        | error e => rw [h2] at h; exact absurd h (by simp)
        | ok p2 =>
          obtain ⟨b2, t2⟩ := p2
          rw [h2] at h
          simp only [Except.ok.injEq, Prod.mk.injEq] at h
          rw [← h.2]
          exact (ih _ _ _ h2).cons₂ _

/-- C4: conditional processing is a monotonic short-circuiting AND: the three
conditional-processing attributes are evaluated in encountered order (the
evaluated trace is an in-order subsequence of the bag); splitting the bag at
any point shows that processing continues from the accumulated flag, and
once that flag is false the remainder evaluates nothing, raises no error and
leaves the verdict false, so the node's cond flag never goes from false back
to true within the pass. -/
theorem conditional_processing_monotonic_short_circuit :
    ∀ (locale : List (List String)) (c : Bool)
      (bag bag1 bag2 : List (Attribute × String)),
      (parse_conditional_processing_attributes locale false bag = .ok (false, [])) ∧
      (parse_conditional_processing_attributes locale c (bag1 ++ bag2) =
        match parse_conditional_processing_attributes locale c bag1 with
        | .ok (b, t) =>
          (match parse_conditional_processing_attributes locale b bag2 with
           | .ok (b2, t2) => .ok (b2, t ++ t2)
           | .error e => .error e)
        | .error e => .error e) ∧
      (((parse_conditional_processing_attributes locale c bag).toOption.map
          (fun p => p.2)).getD []).Sublist bag := by
  intro locale c bag bag1 bag2
  refine ⟨parse_cond_false locale bag, parse_cond_append locale bag1 c bag2, ?_⟩
  cases h : parse_conditional_processing_attributes locale c bag with
  | error e => simp [Except.toOption]
  | ok p =>
    obtain ⟨b, t⟩ := p
    simpa [Except.toOption] using parse_cond_trace_sublist locale bag c b t h

theorem try_fold_characterization (locale : List (List String)) :
    ∀ (toks : List String) (acc : Bool),
      SystemLanguage.try_fold locale acc toks =
        if toks.all (fun t => (LanguageTag.from_str t).isSome)
        then .ok (acc || toks.any (fun t =>
            match LanguageTag.from_str t with
            | some tag => locale_accepts_language_tag locale tag
            | none => false))
        else .error (.parseError "invalid language tag") := by
  intro toks
  induction toks with
  | nil => intro acc; simp [SystemLanguage.try_fold]
  | cons tok rest ih =>
    intro acc
    simp only [SystemLanguage.try_fold]
    cases h : LanguageTag.from_str tok with
    | none => simp [h]
    | some tag =>
      dsimp only
      rw [ih]
      by_cases hall : rest.all (fun t => (LanguageTag.from_str t).isSome) = true
      · simp only [List.all_cons, List.any_cons, h, hall, Option.isSome_some,
          Bool.true_and, if_true]
        cases acc <;> simp [Bool.or_assoc]
      · simp only [List.all_cons, List.any_cons, h, Option.isSome_some, Bool.true_and]
        rw [if_neg hall, if_neg hall]

/-- C5: SystemLanguage::from_attribute splits on commas, trims, parses every
token as a BCP-47 language tag, errors when any token fails to parse
(in particular the empty attribute and the all-digit 12345 are errors) and
otherwise returns true iff at least one parsed token matches one of the
locale's accepted ranges; with a locale accepting de and en-US, de-LU gives
true and en-GB gives false. -/
theorem system_language_parse_and_match :
    ∀ (s : String) (locale : List (List String)),
      SystemLanguage.from_attribute s locale = claim_system_language s locale ∧
      SystemLanguage.from_attribute "de-LU" deLocale = .ok true ∧
      SystemLanguage.from_attribute "en-GB" deLocale = .ok false ∧
      SystemLanguage.from_attribute "" deLocale =
        .error (.parseError "invalid language tag") ∧
      SystemLanguage.from_attribute "12345" deLocale =
        .error (.parseError "invalid language tag") := by
  intro s locale
  refine ⟨?_, by decide, by decide, by decide, by decide⟩
  unfold SystemLanguage.from_attribute claim_system_language
  rw [try_fold_characterization]
  simp [sys_language_tokens]

theorem set_presentation_attributes_ok (r : Except NodeError Unit) :
    set_presentation_attributes r = .ok () := by
  cases r <;> rfl

/-- C3: set_atts runs transform parsing, conditional processing, the
element-specific parse and the presentation-attribute parse in that fixed
order; the first error among the first three steps stops the remaining steps
and becomes the node's error state, set_atts itself is total, and the
presentation-attribute step never contributes an error: its outcome is
swallowed, so the executed steps and the error state do not depend on it. -/
theorem set_atts_fixed_order_first_error :
    ∀ (pbag : List (Attribute × String)) (locale : List (List String))
      (er pr pr2 : Except NodeError Unit),
      (set_atts pbag locale er pr =
        match set_transform_attribute pbag,
            parse_conditional_processing_attributes locale true pbag, er with
        | .error e, _, _ => ([Step.transform], some e)
        | .ok _, .error e, _ => ([Step.transform, Step.condProc], some e)
        | .ok _, .ok _, .error e =>
          ([Step.transform, Step.condProc, Step.elementSpecific], some e)
        | .ok _, .ok _, .ok _ =>
          ([Step.transform, Step.condProc, Step.elementSpecific, Step.presentation],
            none)) ∧
      set_atts pbag locale er pr = set_atts pbag locale er pr2 := by
  intro pbag locale er pr pr2
  constructor
  · unfold set_atts
    rw [set_presentation_attributes_ok]
    cases set_transform_attribute pbag <;>
      cases parse_conditional_processing_attributes locale true pbag <;>
      cases er <;> rfl
  · unfold set_atts
    rw [set_presentation_attributes_ok, set_presentation_attributes_ok]

theorem foldl_eq_of_fun_eq {α β : Type} (f g : α → β → α) (h : ∀ a b, f a b = g a b) :
    ∀ (l : List β) (a : α), l.foldl f a = l.foldl g a := by
  intro l
  induction l with
  | nil => intro a; rfl
  | cons x xs ih => intro a; simp only [List.foldl_cons, h, ih]

theorem apply_class_token_eq_amended {S D : Type} (css_rules : String → Option (List D))
    (applyDecl : S → D → S) (tag : String) (id : Option String) (cls : String) (s : S) :
    apply_class_token css_rules applyDecl tag id cls s =
      amended_apply_class_token css_rules applyDecl tag id cls s := by
  unfold apply_class_token amended_apply_class_token try_apply_by_selector
  by_cases h0 : cls = ""
  · simp [h0]
  · simp only [h0, if_false]
    cases id with
    | none =>
      cases h3 : css_rules (tag ++ "." ++ cls) with
      | some ds => simp [List.find?, h3]
      | none => simp [List.find?, h3]
    | some i =>
      cases h1 : css_rules (tag ++ "." ++ cls ++ "#" ++ i) with
      | some ds => simp [List.find?, h1]
      | none =>
        cases h2 : css_rules ("." ++ cls ++ "#" ++ i) with
        | some ds => simp [List.find?, h1, h2]
        | none =>
          cases h3 : css_rules (tag ++ "." ++ cls) with
          | some ds => simp [List.find?, h1, h2, h3]
          | none => simp [List.find?, h1, h2, h3]

/-- C2 counterexample: with a rule table carrying declarations for both
rect.a#x and rect.a, the source applies only the rect.a#x bucket for the
class token (the match short-circuits the remaining class selectors), while
the claimed order would also apply the rect.a bucket afterwards. -/
theorem set_style_class_bucket_counterexample :
    set_style exampleRules applyTrace "rect" (some "a") (some "x") [] [] = ["d1"] ∧
    claim_set_style exampleRules applyTrace "rect" (some "a") (some "x") []
      [] = ["d1", "d2"] ∧
    set_style exampleRules applyTrace "rect" (some "a") (some "x") [] [] ≠
      claim_set_style exampleRules applyTrace "rect" (some "a") (some "x") [] [] := by
  refine ⟨by decide, by decide, by decide⟩

/-- C2 amended: set_style applies the rule buckets in this order: the
universal selector, the tag selector, then for each whitespace-split class
token the selectors tag.class#id, .class#id, tag.class are tried in that
order with only the first one having rules applied (the later ones are
skipped once one matched) and the bare .class selector applied only if none
of the three matched, then the id selector followed by tag#id, and finally
the declarations of the inline style attribute. -/
theorem set_style_selector_order_amended :
    ∀ (S D : Type) (css_rules : String → Option (List D)) (applyDecl : S → D → S)
      (tag : String) (cls id : Option String) (style_attr : List D) (s : S),
      set_style css_rules applyDecl tag cls id style_attr s =
        amended_set_style css_rules applyDecl tag cls id style_attr s := by
  intro S D css_rules applyDecl tag cls id style_attr s
  unfold set_style amended_set_style set_css_styles
  cases cls with
  | none => rfl
  | some klazz =>
    have h := foldl_eq_of_fun_eq
      (fun acc c => apply_class_token css_rules applyDecl tag id c acc)
      (fun acc c => amended_apply_class_token css_rules applyDecl tag id c acc)
      (fun a b => apply_class_token_eq_amended css_rules applyDecl tag id b a)
      (splitWhitespace klazz)
    cases id <;> simp only [] <;> rw [h]

theorem pushSpanLast_eq_pushSpansLast (sp : Span) :
    ∀ (l : List Chunk), pushSpanLast sp l = pushSpansLast [sp] l
  | [] => rfl
  | [_] => rfl
  | c :: c2 :: rest => by
    simp only [pushSpanLast, pushSpansLast]
    exact congrArg _ (pushSpanLast_eq_pushSpansLast sp (c2 :: rest))

theorem pushSpansLast_length (sps : List Span) :
    ∀ (l : List Chunk), (pushSpansLast sps l).length = l.length
  | [] => rfl
  | [_] => rfl
  | _ :: c2 :: rest => by
    simp only [pushSpansLast, List.length_cons]
    rw [pushSpansLast_length sps (c2 :: rest)]
    simp

theorem pushSpansLast_nil : ∀ (l : List Chunk), pushSpansLast [] l = l
  | [] => rfl
  | [c] => by simp [pushSpansLast]
  | _ :: c2 :: rest => by
    simp only [pushSpansLast]
    rw [pushSpansLast_nil (c2 :: rest)]

theorem pushSpansLast_append (a b : List Span) :
    ∀ (l : List Chunk),
      pushSpansLast (a ++ b) l = pushSpansLast b (pushSpansLast a l)
  | [] => rfl
  | [c] => by simp [pushSpansLast, List.append_assoc]
  | c :: c2 :: rest => by
    have hlen := pushSpansLast_length a (c2 :: rest)
    simp only [pushSpansLast]
    rw [pushSpansLast_append a b (c2 :: rest)]
    cases hpa : pushSpansLast a (c2 :: rest) with
    | nil => rw [hpa] at hlen; simp at hlen
    | cons d ds => simp [pushSpansLast]

theorem pushSpansLast_ne_nil (sps : List Span) (l : List Chunk) (h : l ≠ []) :
    pushSpansLast sps l ≠ [] := by
  intro hc
  apply h
  have hl := pushSpansLast_length sps l
  rw [hc] at hl
  exact List.length_eq_zero.mp hl.symm

theorem chars_to_chunks_eq (values : ComputedValues) (hp hn : Bool) (raw : String)
    (l : List Chunk) (dx dy : ℚ) (depth : ℕ) (h : l ≠ []) :
    Chars.to_chunks values hp hn raw l dx dy depth =
      some (match Chars.make_span values hp hn raw dx dy depth with
            | none => l
            | some sp => pushSpanLast sp l) := by
  unfold Chars.to_chunks
  cases Chars.make_span values hp hn raw dx dy depth with
  | none => rfl
  | some sp =>
    dsimp only
    cases l with
    | nil => exact absurd rfl h
    | cons c rest => rfl

theorem extract_list_flattens (values : ComputedValues) :
    ∀ (cs : List TNode) (depth : ℕ) (hp : Bool) (l : List Chunk), l ≠ [] →
      extract_list values cs depth hp l =
        some (pushSpansLast (flatten_chars values cs depth hp) l)
  | [], depth, hp, l, h => by
    simp only [extract_list, flatten_chars]
    rw [pushSpansLast_nil]
  | TNode.chars raw :: rest, depth, hp, l, h => by
    simp only [extract_list, flatten_chars]
    rw [chars_to_chunks_eq values hp (!rest.isEmpty) raw l 0 0 depth h]
    dsimp only
    cases hs : Chars.make_span values hp (!rest.isEmpty) raw 0 0 depth with
    | none =>
      rw [extract_list_flattens values rest depth true l h]
      simp
    | some sp =>
      have hne : pushSpanLast sp l ≠ [] := by
        rw [pushSpanLast_eq_pushSpansLast]
        exact pushSpansLast_ne_nil [sp] l h
      rw [extract_list_flattens values rest depth true (pushSpanLast sp l) hne]
      rw [pushSpanLast_eq_pushSpansLast, ← pushSpansLast_append]
  | TNode.tspan v x y sdx sdy cs :: rest, depth, hp, l, h => by
    simp only [extract_list, flatten_chars]
    rw [extract_list_flattens values cs (depth + 1) false l h]
    dsimp only
    rw [extract_list_flattens values rest depth true
      (pushSpansLast (flatten_chars values cs (depth + 1) false) l)
      (pushSpansLast_ne_nil _ l h)]
    rw [pushSpansLast_append]
  | TNode.tref v lk cs :: rest, depth, hp, l, h => by
    simp only [extract_list, flatten_chars]
    rw [extract_list_flattens values cs (depth + 1) false l h]
    dsimp only
    rw [extract_list_flattens values rest depth true
      (pushSpansLast (flatten_chars values cs (depth + 1) false) l)
      (pushSpansLast_ne_nil _ l h)]
    rw [pushSpansLast_append]
  | TNode.other v cs :: rest, depth, hp, l, h => by
    simp only [extract_list, flatten_chars]
    rw [extract_list_flattens values cs (depth + 1) false l h]
    dsimp only
    rw [extract_list_flattens values rest depth true
      (pushSpansLast (flatten_chars values cs (depth + 1) false) l)
      (pushSpansLast_ne_nil _ l h)]
    rw [pushSpansLast_append]

theorem tref_to_chunks_preserves (env : String → Option TNode) (v : ComputedValues)
    (link : Option String) (depth : ℕ) (l : List Chunk) (h : l ≠ []) :
    ∃ out, TRef.to_chunks env v link depth l = some out ∧
      out.length = l.length ∧ out ≠ [] := by
  unfold TRef.to_chunks
  cases link with
  | none => exact ⟨l, rfl, rfl, h⟩
  | some id =>
    cases hd : v.is_displayed with
    | false => exact ⟨l, by simp [hd], rfl, h⟩
    | true =>
      simp only [hd, Bool.not_true, Bool.false_eq_true, if_false]
      cases env id with
      | none => exact ⟨l, rfl, rfl, h⟩
      | some target =>
        dsimp only
        unfold extract_chars_children_to_chunks_recursively
        rw [extract_list_flattens v (childrenOf target) depth false l h]
        exact ⟨_, rfl, pushSpansLast_length _ l, pushSpansLast_ne_nil _ l h⟩

theorem children_to_chunks_count (env : String → Option TNode) :
    ∀ (cs : List TNode) (pv : ComputedValues) (dx dy : ℚ) (depth : ℕ) (hp : Bool)
      (l : List Chunk), l ≠ [] →
      ∃ out, children_to_chunks env pv dx dy depth cs hp l = some out ∧
        out.length = l.length + opens_chunk_count_list cs ∧ out ≠ []
  | [], pv, dx, dy, depth, hp, l, h => by
    simp only [children_to_chunks, opens_chunk_count_list]
    exact ⟨l, rfl, by omega, h⟩
  | TNode.chars raw :: rest, pv, dx, dy, depth, hp, l, h => by
    simp only [children_to_chunks, opens_chunk_count_list, opens_chunk_count]
    rw [chars_to_chunks_eq pv hp (!rest.isEmpty) raw l dx dy depth h]
    dsimp only
    cases hs : Chars.make_span pv hp (!rest.isEmpty) raw dx dy depth with
    | none =>
      obtain ⟨out, e1, len1, ne1⟩ :=
        children_to_chunks_count env rest pv dx dy depth true l h
      exact ⟨out, e1, by omega, ne1⟩
    | some sp =>
      have hne : pushSpanLast sp l ≠ [] := by
        rw [pushSpanLast_eq_pushSpansLast]
        exact pushSpansLast_ne_nil [sp] l h
      obtain ⟨out, e1, len1, ne1⟩ :=
        children_to_chunks_count env rest pv dx dy depth true (pushSpanLast sp l) hne
      have hlen : (pushSpanLast sp l).length = l.length := by
        rw [pushSpanLast_eq_pushSpansLast]
        exact pushSpansLast_length [sp] l
      exact ⟨out, e1, by omega, ne1⟩
  | TNode.tspan v x y sdx sdy cs :: rest, pv, dx, dy, depth, hp, l, h => by
    simp only [children_to_chunks, opens_chunk_count_list, opens_chunk_count,
      TSpan.to_chunks]
    cases hd : v.is_displayed with
    | false =>
      simp only [Bool.not_false, if_true]
      obtain ⟨out, e1, len1, ne1⟩ :=
        children_to_chunks_count env rest pv dx dy depth true l h
      rw [e1]
      refine ⟨out, rfl, ?_, ne1⟩
      simp only [Bool.false_eq_true, if_false]
      omega
    | true =>
      simp only [Bool.not_true, Bool.false_eq_true, if_false]
      have hne2 : (if x.isSome || y.isSome then l ++ [⟨v, x, y, []⟩] else l) ≠ [] := by
        cases hxy : x.isSome || y.isSome <;> simp [h]
      obtain ⟨out1, e1, len1, ne1⟩ :=
        children_to_chunks_count env cs v (dx + sdx) (dy + sdy) (depth + 1) false
          (if x.isSome || y.isSome then l ++ [⟨v, x, y, []⟩] else l) hne2
      rw [e1]
      dsimp only
      obtain ⟨out2, e2, len2, ne2⟩ :=
        children_to_chunks_count env rest pv dx dy depth true out1 ne1
      rw [e2]
      refine ⟨out2, rfl, ?_, ne2⟩
      cases hxy : x.isSome || y.isSome <;> rw [hxy] at len1 <;>
        simp only [eq_self_iff_true, Bool.false_eq_true, if_true, if_false,
          List.length_append, List.length_cons, List.length_nil] at len1 ⊢ <;> omega
  | TNode.tref v lk cs :: rest, pv, dx, dy, depth, hp, l, h => by
    simp only [children_to_chunks, opens_chunk_count_list, opens_chunk_count]
    obtain ⟨out1, e1, len1, ne1⟩ := tref_to_chunks_preserves env v lk (depth + 1) l h
    rw [e1]
    dsimp only
    obtain ⟨out2, e2, len2, ne2⟩ :=
      children_to_chunks_count env rest pv dx dy depth true out1 ne1
    rw [e2]
    exact ⟨out2, rfl, by omega, ne2⟩
  | TNode.other v cs :: rest, pv, dx, dy, depth, hp, l, h => by
    simp only [children_to_chunks, opens_chunk_count_list, opens_chunk_count]
    obtain ⟨out, e1, len1, ne1⟩ :=
      children_to_chunks_count env rest pv dx dy depth true l h
    exact ⟨out, e1, by omega, ne1⟩

/-- C10: every chunk-construction walk started from Text::make_chunks
succeeds (the modelled assertion num_chunks > 0 in Chars::to_chunks never
fires, i.e. the result is never none) and returns a non-empty chunk list:
make_chunks pushes an initial chunk before walking any children and no step
ever removes a chunk. -/
theorem make_chunks_assertion_never_fails :
    ∀ (env : String → Option TNode) (v : ComputedValues) (cs : List TNode)
      (x y dx dy : ℚ),
      (Text.make_chunks env v cs x y dx dy).map List.isEmpty = some false := by
  intro env v cs x y dx dy
  unfold Text.make_chunks
  obtain ⟨out, e1, len, ne⟩ :=
    children_to_chunks_count env cs v dx dy 0 false [⟨v, some x, some y, []⟩]
      (by simp)
  rw [e1]
  cases out with
  | nil => exact absurd rfl ne
  | cons c rest => rfl

/-- C7 counterexample: in the document text A, tspan x equal 10 containing B,
then C, where the tspan's computed values have display none, the tspan
declares an absolute x yet opens no chunk: the walk produces 1 chunk, while
the claimed rule (a new chunk iff an absolute x or y is declared) predicts
1 + 1 = 2 chunks. -/
theorem tspan_chunk_open_display_counterexample :
    (Text.make_chunks envEmpty cvPlain hiddenChildren 0 0 0 0).map List.length =
      some 1 ∧
    hiddenChildren.countP claim_opens_chunk = 1 ∧
    (Text.make_chunks envEmpty cvPlain hiddenChildren 0 0 0 0).map List.length ≠
      some (1 + hiddenChildren.countP claim_opens_chunk) := by
  have hA : Chars.to_chunks cvPlain false true "A"
      [⟨cvPlain, some 0, some 0, []⟩] 0 0 0 =
      some [⟨cvPlain, some 0, some 0, [⟨cvPlain, "A", 0, 0, 0⟩]⟩] := by decide
  have hC : Chars.to_chunks cvPlain true false "C"
      [⟨cvPlain, some 0, some 0, [⟨cvPlain, "A", 0, 0, 0⟩]⟩] 0 0 0 =
      some [⟨cvPlain, some 0, some 0,
        [⟨cvPlain, "A", 0, 0, 0⟩, ⟨cvPlain, "C", 0, 0, 0⟩]⟩] := by decide
  have hdisp : cvHidden.is_displayed = false := by decide
  have h1 : Text.make_chunks envEmpty cvPlain hiddenChildren 0 0 0 0 =
      some [⟨cvPlain, some 0, some 0,
        [⟨cvPlain, "A", 0, 0, 0⟩, ⟨cvPlain, "C", 0, 0, 0⟩]⟩] := by
    simp [Text.make_chunks, hiddenChildren, children_to_chunks, TSpan.to_chunks,
      hdisp, hA, hC]
  refine ⟨by rw [h1]; rfl, by decide, ?_⟩
  rw [h1]
  decide

/-- C7 amended: during chunk construction a character-data child always
appends its span to the most recently opened chunk, and a displayed tspan
child opens a new chunk if and only if it declares an absolute x or y, while
a tspan whose computed values are not displayed is skipped entirely and
opens no chunk; consequently the document text A, tspan x equal 10
containing B, then C (all displayed) produces exactly 2 chunks, the first
containing only span A and the second the spans B then C in order, and in
general the walk returns 1 + (chunks opened by displayed tspans declaring
x or y) chunks. -/
theorem chunk_construction_example_and_count :
    (Text.make_chunks envEmpty cvPlain exampleChildren 0 0 0 0 =
      some [⟨cvPlain, some 0, some 0, [⟨cvPlain, "A", 0, 0, 0⟩]⟩,
            ⟨cvSpan, some 10, none,
              [⟨cvSpan, "B", 0, 0, 1⟩, ⟨cvPlain, "C", 0, 0, 0⟩]⟩]) ∧
    ∀ (env : String → Option TNode) (v : ComputedValues) (cs : List TNode)
      (x y dx dy : ℚ),
      (Text.make_chunks env v cs x y dx dy).map List.length =
        some (1 + opens_chunk_count_list cs) := by
  constructor
  · have hA : Chars.to_chunks cvPlain false true "A"
        [⟨cvPlain, some 0, some 0, []⟩] 0 0 0 =
        some [⟨cvPlain, some 0, some 0, [⟨cvPlain, "A", 0, 0, 0⟩]⟩] := by decide
    have hB : Chars.to_chunks cvSpan false false "B"
        [⟨cvPlain, some 0, some 0, [⟨cvPlain, "A", 0, 0, 0⟩]⟩,
         ⟨cvSpan, some 10, none, []⟩] 0 0 1 =
        some [⟨cvPlain, some 0, some 0, [⟨cvPlain, "A", 0, 0, 0⟩]⟩,
          ⟨cvSpan, some 10, none, [⟨cvSpan, "B", 0, 0, 1⟩]⟩] := by decide
    have hC : Chars.to_chunks cvPlain true false "C"
        [⟨cvPlain, some 0, some 0, [⟨cvPlain, "A", 0, 0, 0⟩]⟩,
         ⟨cvSpan, some 10, none, [⟨cvSpan, "B", 0, 0, 1⟩]⟩] 0 0 0 =
        some [⟨cvPlain, some 0, some 0, [⟨cvPlain, "A", 0, 0, 0⟩]⟩,
          ⟨cvSpan, some 10, none,
            [⟨cvSpan, "B", 0, 0, 1⟩, ⟨cvPlain, "C", 0, 0, 0⟩]⟩] := by decide
    have hdisp : cvSpan.is_displayed = true := by decide
    simp [Text.make_chunks, exampleChildren, children_to_chunks, TSpan.to_chunks,
      hdisp, hA, hB, hC]
  · intro env v cs x y dx dy
    unfold Text.make_chunks
    obtain ⟨out, e1, len, ne⟩ :=
      children_to_chunks_count env cs v dx dy 0 false [⟨v, some x, some y, []⟩]
        (by simp)
    have hl : out.length = 1 + opens_chunk_count_list cs := by
      simp at len
      omega
    rw [e1]
    show some out.length = some (1 + opens_chunk_count_list cs)
    rw [hl]

theorem flatten_chars_values_dx_dy (values : ComputedValues) :
    ∀ (cs : List TNode) (depth : ℕ) (hp : Bool),
      (flatten_chars values cs depth hp).all
        (fun sp => decide (sp.values = values ∧ sp.dx = 0 ∧ sp.dy = 0)) = true
  | [], depth, hp => by simp [flatten_chars]
  | TNode.chars raw :: rest, depth, hp => by
    simp only [flatten_chars, List.all_append]
    have hrest := flatten_chars_values_dx_dy values rest depth true
    cases hs : Chars.make_span values hp (!rest.isEmpty) raw 0 0 depth with
    | none =>
      simp at hrest ⊢
      exact hrest
    | some sp =>
      have hsp : sp.values = values ∧ sp.dx = 0 ∧ sp.dy = 0 := by
        unfold Chars.make_span at hs
        by_cases hn :
            xml_space_normalize values.xml_space hp (!rest.isEmpty) raw = ""
        · rw [if_pos hn] at hs; exact absurd hs (by simp)
        · rw [if_neg hn] at hs
          simp only [Option.some.injEq] at hs
          rw [← hs]
          exact ⟨rfl, rfl, rfl⟩
      simp at hrest ⊢
      exact ⟨hsp, hrest⟩
  | TNode.tspan v x y sdx sdy cs :: rest, depth, hp => by
    simp only [flatten_chars, List.all_append]
    have h1 := flatten_chars_values_dx_dy values cs (depth + 1) false
    have h2 := flatten_chars_values_dx_dy values rest depth true
    simp at h1 h2 ⊢
    exact ⟨h1, h2⟩
  | TNode.tref v lk cs :: rest, depth, hp => by
    simp only [flatten_chars, List.all_append]
    have h1 := flatten_chars_values_dx_dy values cs (depth + 1) false
    have h2 := flatten_chars_values_dx_dy values rest depth true
    simp at h1 h2 ⊢
    exact ⟨h1, h2⟩
  | TNode.other v cs :: rest, depth, hp => by
    simp only [flatten_chars, List.all_append]
    have h1 := flatten_chars_values_dx_dy values cs (depth + 1) false
    have h2 := flatten_chars_values_dx_dy values rest depth true
    simp at h1 h2 ⊢
    exact ⟨h1, h2⟩

/-- C9 counterexample: a tref whose computed values have display none, with a
resolvable target containing character data, contributes no spans at all,
although the claim (every tref child with a resolvable target flattens all
the target's descendant character data into spans) predicts the flattened
spans to appear. -/
theorem tref_display_counterexample :
    TRef.to_chunks envTref cvHidden (some "t") 1 [⟨cvPlain, some 0, some 0, []⟩] =
      some [⟨cvPlain, some 0, some 0, []⟩] ∧
    envTref "t" = some trefTarget ∧
    flatten_chars cvHidden (childrenOf trefTarget) 1 false ≠ [] := by
  refine ⟨?_, by simp [envTref], ?_⟩
  · have hdisp : cvHidden.is_displayed = false := by decide
    simp [TRef.to_chunks, hdisp]
  · have hB : Chars.make_span cvHidden false true "B" 0 0 1 =
        some ⟨cvHidden, "B", 0, 0, 1⟩ := by decide
    simp [trefTarget, childrenOf, flatten_chars, hB]

/-- C9 amended: for every displayed tref child with a resolvable target,
chunk construction flattens all character data in the target's descendant
subtree into a flat sequence of spans in depth-first order appended to the
most recently opened chunk (no new chunk is opened and the target's
sub-element structure is discarded), every flattened span carrying the
referencing tref's cascaded computed values and zero dx/dy; an undisplayed
tref or a dangling reference contributes no spans or chunks at all. -/
theorem tref_flattens_with_referencing_values :
    (∀ (env : String → Option TNode) (values : ComputedValues) (id : String)
       (depth : ℕ) (c0 : Chunk) (cr : List Chunk),
       TRef.to_chunks env values (some id) depth (c0 :: cr) =
         if values.is_displayed then
           match env id with
           | some target =>
             some (pushSpansLast
               (flatten_chars values (childrenOf target) depth false) (c0 :: cr))
           | none => some (c0 :: cr)
         else some (c0 :: cr)) ∧
    (∀ (values : ComputedValues) (cs : List TNode) (depth : ℕ) (hp : Bool),
      (flatten_chars values cs depth hp).all
        (fun sp => decide (sp.values = values ∧ sp.dx = 0 ∧ sp.dy = 0)) = true) := by
  constructor
  · intro env values id depth c0 cr
    unfold TRef.to_chunks
    cases hd : values.is_displayed with
    | false => simp [hd]
    | true =>
      simp only [hd, Bool.not_true, Bool.false_eq_true, if_false, if_true]
      cases env id with
      | none => rfl
      | some target =>
        dsimp only
        unfold extract_chars_children_to_chunks_recursively
        rw [extract_list_flattens values (childrenOf target) depth false
          (c0 :: cr) (by simp)]
  · exact flatten_chars_values_dx_dy

/-- C8: the text-anchor correction applied to a chunk's starting position
before spans are laid out is no shift for anchor start, minus half the
chunk's total advance for middle and minus the full advance for end, along
the y axis for vertical writing mode and along the x axis otherwise; the
first span of a measured chunk is laid out exactly at the corrected start,
and a horizontal chunk with total advance (100, 0), anchor middle and
starting x 50 begins layout at x 0. -/
theorem text_anchor_correction_and_layout_start :
    (∀ (wm : WritingMode) (adv : ℚ × ℚ),
      text_anchor_advance TextAnchor.Start wm adv = (0, 0) ∧
      text_anchor_advance TextAnchor.Middle wm adv =
        (if wm.is_vertical then ((0 : ℚ), -(adv.2 / 2)) else (-(adv.1 / 2), 0)) ∧
      text_anchor_advance TextAnchor.End wm adv =
        (if wm.is_vertical then ((0 : ℚ), -adv.2) else (-adv.1, 0))) ∧
    (∀ (m : MeasuredChunk) (x y : ℚ),
      (PositionedChunk.from_measured m x y).spans.head? =
        (m.spans.head?).map (fun s =>
          PositionedSpan.from_measured s
            (x + (text_anchor_advance m.values.text_anchor
              m.values.writing_mode m.advance).1)
            (y + (text_anchor_advance m.values.text_anchor
              m.values.writing_mode m.advance).2))) ∧
    ((PositionedChunk.from_measured mc100 50 0).spans.map
      (fun p => p.position) = [((0 : ℚ), (0 : ℚ))]) := by
  refine ⟨?_, ?_, by
    norm_num [PositionedChunk.from_measured, mc100, cvMiddle, text_anchor_advance,
      WritingMode.is_vertical, layout_spans, PositionedSpan.from_measured]⟩
  · intro wm adv
    cases wm <;> exact ⟨rfl, rfl, rfl⟩
  · intro m x y
    unfold PositionedChunk.from_measured
    cases hs : m.spans with
    | nil => simp [layout_spans]
    | cons s rest => simp [layout_spans]

end Rsvg
